import Mathlib

/-!
Verification of the geometric core and dataset-index logic of the SPEED
spacecraft pose-estimation data loader (`src/model/dataloader_utils.py`).

The geometric functions (`Camera.__init__`, `quat2dcm`, `project`,
`scalePoseVector`) are embedded over exact real arithmetic; the dataset
construction (`SpeedDataset.__init__`) is embedded as a pure function on
lists of annotation records, with Python slicing/indexing semantics made
explicit.
-/

open scoped Matrix

namespace SpeedPose

/-! ## Camera model (`Camera.__init__`) -/

/-- Physical focal length in metres (`fx = fy = 0.0176` in the source). -/
def camera_fx : ℝ := 0.0176

/-- Pixel pitch in metres per pixel (`ppx = ppy = 5.86e-6` in the source). -/
def camera_ppx : ℝ := 5.86e-6

/-- Hardcoded number of horizontal pixels (`self.nu = 1920` in the source). -/
def camera_nu : ℝ := 1920

/-- Hardcoded number of vertical pixels (`self.nv = 1200` in the source). -/
def camera_nv : ℝ := 1200

/-- The intrinsics matrix `self.K` computed by `Camera.__init__(img_size, input_size)`.
Note that the base matrix `k` uses the hardcoded sensor constants `camera_nu`,
`camera_nv`, while the scale matrix divides by the `img_size` argument. -/
noncomputable def cameraK (img_size input_size : ℝ × ℝ) : Matrix (Fin 3) (Fin 3) ℝ :=
  let fpx := camera_fx / camera_ppx
  let fpy := camera_fx / camera_ppx
  let k : Matrix (Fin 3) (Fin 3) ℝ :=
    !![fpx, 0, camera_nu / 2;
       0, fpy, camera_nv / 2;
       0, 0, 1]
  let scale : Matrix (Fin 3) (Fin 3) ℝ :=
    !![input_size.1 / img_size.1, 0, 0;
       0, input_size.2 / img_size.2, 0;
       0, 0, 1]
  scale * k

/-- The intrinsics matrix as the specification describes it: the base matrix `k`
uses the native sensor size passed at construction for the principal point.
This definition follows the spec's words and is compared against `cameraK`,
which follows the source. -/
noncomputable def cameraK_specform (img_size input_size : ℝ × ℝ) : Matrix (Fin 3) (Fin 3) ℝ :=
  let fpx := camera_fx / camera_ppx
  let k : Matrix (Fin 3) (Fin 3) ℝ :=
    !![fpx, 0, img_size.1 / 2;
       0, fpx, img_size.2 / 2;
       0, 0, 1]
  let scale : Matrix (Fin 3) (Fin 3) ℝ :=
    !![input_size.1 / img_size.1, 0, 0;
       0, input_size.2 / img_size.2, 0;
       0, 0, 1]
  scale * k

/-! ## Quaternion to direction-cosine matrix (`quat2dcm`) -/

/-- Euclidean norm of a 4-vector, as computed by `np.linalg.norm(q)`. -/
noncomputable def qnorm (q : Fin 4 → ℝ) : ℝ :=
  Real.sqrt (q 0 ^ 2 + q 1 ^ 2 + q 2 ^ 2 + q 3 ^ 2)

/-- The direction-cosine matrix built from (already normalized) quaternion
components, exactly the nine entry formulas of `quat2dcm`. -/
def rotRaw (q0 q1 q2 q3 : ℝ) : Matrix (Fin 3) (Fin 3) ℝ :=
  !![2 * q0 ^ 2 - 1 + 2 * q1 ^ 2, 2 * q1 * q2 + 2 * q0 * q3, 2 * q1 * q3 - 2 * q0 * q2;
     2 * q1 * q2 - 2 * q0 * q3, 2 * q0 ^ 2 - 1 + 2 * q2 ^ 2, 2 * q2 * q3 + 2 * q0 * q1;
     2 * q1 * q3 + 2 * q0 * q2, 2 * q2 * q3 - 2 * q0 * q1, 2 * q0 ^ 2 - 1 + 2 * q3 ^ 2]

/-- `quat2dcm(q)`: normalize `q` by its Euclidean norm, then fill in the
direction-cosine matrix from the normalized components. -/
noncomputable def quat2dcm (q : Fin 4 → ℝ) : Matrix (Fin 3) (Fin 3) ℝ :=
  let qn : Fin 4 → ℝ := fun i => q i / qnorm q
  rotRaw (qn 0) (qn 1) (qn 2) (qn 3)

lemma quat2dcm_eq_rotRaw (q : Fin 4 → ℝ) :
    quat2dcm q = rotRaw (q 0 / qnorm q) (q 1 / qnorm q) (q 2 / qnorm q) (q 3 / qnorm q) := rfl

/-- The homogeneous form of the quaternion rotation matrix: equal to `rotRaw`
whenever the components have unit sum of squares, but with every entry a
homogeneous quadratic. -/
def rotHom (q0 q1 q2 q3 : ℝ) : Matrix (Fin 3) (Fin 3) ℝ :=
  !![q0 ^ 2 + q1 ^ 2 - q2 ^ 2 - q3 ^ 2, 2 * q1 * q2 + 2 * q0 * q3, 2 * q1 * q3 - 2 * q0 * q2;
     2 * q1 * q2 - 2 * q0 * q3, q0 ^ 2 - q1 ^ 2 + q2 ^ 2 - q3 ^ 2, 2 * q2 * q3 + 2 * q0 * q1;
     2 * q1 * q3 + 2 * q0 * q2, 2 * q2 * q3 - 2 * q0 * q1, q0 ^ 2 - q1 ^ 2 - q2 ^ 2 + q3 ^ 2]

lemma rotRaw_eq_rotHom (a b c d : ℝ) (h : a ^ 2 + b ^ 2 + c ^ 2 + d ^ 2 = 1) :
    rotRaw a b c d = rotHom a b c d := by
  ext i j
  fin_cases i <;> fin_cases j <;> simp [rotRaw, rotHom] <;> linear_combination h

lemma rotHom_transpose (a b c d : ℝ) :
    (rotHom a b c d)ᵀ =
      !![a ^ 2 + b ^ 2 - c ^ 2 - d ^ 2, 2 * b * c - 2 * a * d, 2 * b * d + 2 * a * c;
         2 * b * c + 2 * a * d, a ^ 2 - b ^ 2 + c ^ 2 - d ^ 2, 2 * c * d - 2 * a * b;
         2 * b * d - 2 * a * c, 2 * c * d + 2 * a * b, a ^ 2 - b ^ 2 - c ^ 2 + d ^ 2] := by
  ext i j
  fin_cases i <;> fin_cases j <;> rfl

lemma rotHom_mul_transpose (a b c d : ℝ) (h : a ^ 2 + b ^ 2 + c ^ 2 + d ^ 2 = 1) :
    rotHom a b c d * (rotHom a b c d)ᵀ = 1 := by
  rw [rotHom_transpose]
  ext i j
  fin_cases i <;> fin_cases j <;>
    simp [rotHom, Matrix.mul_apply, Fin.sum_univ_three, Matrix.one_apply] <;>
    first
      | ring1
      | linear_combination (a ^ 2 + b ^ 2 + c ^ 2 + d ^ 2 + 1) * h

lemma rotHom_det (a b c d : ℝ) (h : a ^ 2 + b ^ 2 + c ^ 2 + d ^ 2 = 1) :
    (rotHom a b c d).det = 1 := by
  rw [Matrix.det_fin_three]
  simp [rotHom]
  linear_combination ((a ^ 2 + b ^ 2 + c ^ 2 + d ^ 2) ^ 2 + (a ^ 2 + b ^ 2 + c ^ 2 + d ^ 2) + 1) * h

lemma sumSq_pos (q : Fin 4 → ℝ) (h : q ≠ 0) :
    0 < q 0 ^ 2 + q 1 ^ 2 + q 2 ^ 2 + q 3 ^ 2 := by
  rcases lt_or_eq_of_le (by positivity : (0 : ℝ) ≤ q 0 ^ 2 + q 1 ^ 2 + q 2 ^ 2 + q 3 ^ 2) with hlt | heq
  · exact hlt
  · exfalso
    apply h
    have e0 : q 0 ^ 2 = 0 := le_antisymm (by nlinarith [sq_nonneg (q 1), sq_nonneg (q 2), sq_nonneg (q 3)]) (sq_nonneg _)
    have e1 : q 1 ^ 2 = 0 := le_antisymm (by nlinarith [sq_nonneg (q 0), sq_nonneg (q 2), sq_nonneg (q 3)]) (sq_nonneg _)
    have e2 : q 2 ^ 2 = 0 := le_antisymm (by nlinarith [sq_nonneg (q 0), sq_nonneg (q 1), sq_nonneg (q 3)]) (sq_nonneg _)
    have e3 : q 3 ^ 2 = 0 := le_antisymm (by nlinarith [sq_nonneg (q 0), sq_nonneg (q 1), sq_nonneg (q 2)]) (sq_nonneg _)
    funext i
    fin_cases i <;>
      simpa [pow_eq_zero_iff] using (by assumption : _ ^ 2 = (0 : ℝ))

lemma qnorm_pos (q : Fin 4 → ℝ) (h : q ≠ 0) : 0 < qnorm q :=
  Real.sqrt_pos.mpr (sumSq_pos q h)

lemma normSq_normalized (q : Fin 4 → ℝ) (h : q ≠ 0) :
    (q 0 / qnorm q) ^ 2 + (q 1 / qnorm q) ^ 2 + (q 2 / qnorm q) ^ 2 + (q 3 / qnorm q) ^ 2 = 1 := by
  have hpos := qnorm_pos q h
  have hsq : qnorm q ^ 2 = q 0 ^ 2 + q 1 ^ 2 + q 2 ^ 2 + q 3 ^ 2 :=
    Real.sq_sqrt (sumSq_pos q h).le
  field_simp
  linarith [hsq]

/-! ## Projector (`project`) -/

/-- The 3×4 pose matrix `np.hstack((np.transpose(quat2dcm(q)), np.expand_dims(r, 1)))`:
columns 0..2 come from the transpose of the direction-cosine matrix, column 3 is
the translation vector. -/
noncomputable def poseMat (q : Fin 4 → ℝ) (r : Fin 3 → ℝ) : Matrix (Fin 3) (Fin 4) ℝ :=
  fun i => ![(quat2dcm q)ᵀ i 0, (quat2dcm q)ᵀ i 1, (quat2dcm q)ᵀ i 2, r i]

/-- One column of `p_cam = np.dot(pose_mat, points_body)`: the camera-frame
coordinates of a single homogeneous body-frame point. -/
noncomputable def camPoint (q : Fin 4 → ℝ) (r : Fin 3 → ℝ) (p : Fin 4 → ℝ) : Fin 3 → ℝ :=
  (poseMat q r).mulVec p

/-- One column of `points_camera_frame = p_cam / p_cam[2]`: the homogeneous
divide by the depth row. -/
noncomputable def normCamPoint (q : Fin 4 → ℝ) (r : Fin 3 → ℝ) (p : Fin 4 → ℝ) : Fin 3 → ℝ :=
  fun i => camPoint q r p i / camPoint q r p 2

/-- One column of `points_image_plane = K.dot(points_camera_frame)`. -/
noncomputable def imgPoint (q : Fin 4 → ℝ) (r : Fin 3 → ℝ) (K : Matrix (Fin 3) (Fin 3) ℝ)
    (p : Fin 4 → ℝ) : Fin 3 → ℝ :=
  K.mulVec (normCamPoint q r p)

/-- `project(q, r, K, points)`: the pair `(x, y)` of rows 0 and 1 of the
image-plane points, one entry per input point, in input order. -/
noncomputable def project (q : Fin 4 → ℝ) (r : Fin 3 → ℝ) (K : Matrix (Fin 3) (Fin 3) ℝ)
    (points : List (Fin 4 → ℝ)) : List ℝ × List ℝ :=
  (points.map (fun p => imgPoint q r K p 0), points.map (fun p => imgPoint q r K p 1))

/-! ## Axis-length rescale (`scalePoseVector`) -/

/-- `scalePoseVector(xa, ya, factor)`: for `i` in 1..3 (in that order), replace
entry `i` of each coordinate array by `(p[i] - p[0]) * factor + p[0]`. -/
def scalePoseVector (xa ya : Fin 4 → ℝ) (factor : ℝ) : (Fin 4 → ℝ) × (Fin 4 → ℝ) :=
  let step := fun (a : Fin 4 → ℝ) (i : Fin 4) => Function.update a i ((a i - a 0) * factor + a 0)
  (step (step (step xa 1) 2) 3, step (step (step ya 1) 2) 3)

/-! ## Dataset index (`SpeedDataset.__init__` and `__len__`)

One record of the per-split JSON file. Numeric values are modelled as
rationals: the constructor only restructures them, it never computes with
them. File access, image decoding and the transform collaborator are external
and out of scope, so the construction is a pure function of the decoded
record list. -/

structure SpeedRecord where
  filename : String
  q_vbs2tango : List ℚ
  r_Vo2To_vbs_true : List ℚ
  bbox : List ℚ
  wireframe : List ℚ
deriving DecidableEq

/-- One entry of `self.labels`: the dict `{'q': ..., 'r': ..., 'bbox': ..., 'wireframe': ...}`. -/
structure SpeedLabel where
  q : List ℚ
  r : List ℚ
  bbox : List ℚ
  wireframe : List ℚ
deriving DecidableEq

/-- The label dict built from one record. -/
def mkLabel (a : SpeedRecord) : SpeedLabel :=
  ⟨a.q_vbs2tango, a.r_Vo2To_vbs_true, a.bbox, a.wireframe⟩

/-- The fields of a constructed `SpeedDataset` that the claims are about. -/
structure SpeedState where
  sample_ids : List String
  train : Bool
  labels : List SpeedLabel
deriving DecidableEq

/-- Failure modes of construction: the explicit `ValueError` on an unknown
split, and Python's `IndexError` from `self.sample_ids[sanity_check]`. -/
inductive InitError where
  | invalidSplit
  | indexOutOfRange
deriving DecidableEq

/-- Python slice `l[:k]` for an arbitrary (possibly negative) bound `k`. -/
def pySliceTo {α : Type} (l : List α) (k : ℤ) : List α :=
  if 0 ≤ k then l.take k.toNat else l.take ((l.length : ℤ) + k).toNat

/-- Python indexing `l[i]` for an arbitrary (possibly negative) index `i`,
returning `none` where Python raises `IndexError`. -/
def pyIndex {α : Type} (l : List α) (i : ℤ) : Option α :=
  let j : ℤ := if 0 ≤ i then i else (l.length : ℤ) + i
  if 0 ≤ j ∧ j < (l.length : ℤ) then l.get? j.toNat else none

/-- `SpeedDataset.__init__(split, ..., split_index, ..., sanity_check)`, as a
pure function of the decoded record list: validate the split name, build
`sample_ids`, and for the train split build `labels` and apply either the
`sanity_check` single-sample reduction or the `[:split_idx]` truncation with
`split_idx = -1 if split_index is None else split_index`. -/
def speedDatasetInit (split : String) (label_list : List SpeedRecord)
    (split_index : Option ℤ) (sanity_check : Option ℤ) : Except InitError SpeedState :=
  if split ∈ (["train", "test", "real_test"] : List String) then
    let sample_ids := label_list.map (fun l => l.filename)
    let train := split == "train"
    let split_idx : ℤ := match split_index with
      | none => -1
      | some k => k
    if train then
      let labels := label_list.map mkLabel
      match sanity_check with
      | some sc =>
        match pyIndex sample_ids sc, pyIndex labels sc with
        | some sid, some lab => Except.ok ⟨[sid], train, [lab]⟩
        | _, _ => Except.error InitError.indexOutOfRange
      | none => Except.ok ⟨pySliceTo sample_ids split_idx, train, pySliceTo labels split_idx⟩
    else
      Except.ok ⟨sample_ids, train, []⟩
  else
    Except.error InitError.invalidSplit

/-- `SpeedDataset.__len__`. -/
def speedLen (s : SpeedState) : ℕ :=
  s.sample_ids.length

/-- Concrete record fixtures used by the dataset witnesses. -/
def recA : SpeedRecord :=
  ⟨"img000001.jpg", [1, 0, 0, 0], [0, 0, 10], [0, 0, 1, 1], [1, 2]⟩

/-- Second concrete record fixture. -/
def recB : SpeedRecord :=
  ⟨"img000002.jpg", [0, 1, 0, 0], [1, 2, 3], [2, 2, 3, 3], [3, 4]⟩

end SpeedPose

namespace SpeedPose

/-- C1 counterexample input: native size (960, 600), input size (256, 256). -/
theorem cameraK_ne_specform :
    cameraK (960, 600) (256, 256) ≠ cameraK_specform (960, 600) (256, 256) := by
  intro h
  have h02 := congrFun (congrFun h 0) 2
  simp [cameraK, cameraK_specform, Matrix.mul_apply, Fin.sum_univ_three,
    camera_nu, camera_nv, camera_fx, camera_ppx] at h02
  norm_num at h02

/-- C1 (amended): for every native size and input size, the intrinsics matrix is
`scale · k` where `k` uses the fixed sensor constants `nu = 1920`, `nv = 1200`
(not the passed native size): spelled out entrywise. -/
theorem cameraK_entries (img_size input_size : ℝ × ℝ) :
    cameraK img_size input_size =
      !![input_size.1 / img_size.1 * (camera_fx / camera_ppx), 0,
           input_size.1 / img_size.1 * (camera_nu / 2);
         0, input_size.2 / img_size.2 * (camera_fx / camera_ppx),
           input_size.2 / img_size.2 * (camera_nv / 2);
         0, 0, 1] := by
  ext i j
  fin_cases i <;> fin_cases j <;>
    simp [cameraK, Matrix.mul_apply, Fin.sum_univ_three]

/-- C2: for every 4-vector `q` of non-zero Euclidean norm, `quat2dcm` divides
`q` by its Euclidean norm and returns exactly the stated nine entries in the
normalized components. -/
theorem quat2dcm_entry_formulas (q : Fin 4 → ℝ)
    (h : Real.sqrt (q 0 ^ 2 + q 1 ^ 2 + q 2 ^ 2 + q 3 ^ 2) ≠ 0) :
    quat2dcm q =
      rotRaw (q 0 / Real.sqrt (q 0 ^ 2 + q 1 ^ 2 + q 2 ^ 2 + q 3 ^ 2))
        (q 1 / Real.sqrt (q 0 ^ 2 + q 1 ^ 2 + q 2 ^ 2 + q 3 ^ 2))
        (q 2 / Real.sqrt (q 0 ^ 2 + q 1 ^ 2 + q 2 ^ 2 + q 3 ^ 2))
        (q 3 / Real.sqrt (q 0 ^ 2 + q 1 ^ 2 + q 2 ^ 2 + q 3 ^ 2)) := rfl

/-- C2 witness: the identity quaternion has non-zero norm and the theorem
applies to it. -/
theorem quat2dcm_entry_formulas_witness :
    Real.sqrt (((![1, 0, 0, 0] : Fin 4 → ℝ) 0) ^ 2 + ((![1, 0, 0, 0] : Fin 4 → ℝ) 1) ^ 2 +
        ((![1, 0, 0, 0] : Fin 4 → ℝ) 2) ^ 2 + ((![1, 0, 0, 0] : Fin 4 → ℝ) 3) ^ 2) ≠ 0 ∧
      quat2dcm (![1, 0, 0, 0] : Fin 4 → ℝ) =
        rotRaw (((![1, 0, 0, 0] : Fin 4 → ℝ) 0) / Real.sqrt (((![1, 0, 0, 0] : Fin 4 → ℝ) 0) ^ 2 + ((![1, 0, 0, 0] : Fin 4 → ℝ) 1) ^ 2 + ((![1, 0, 0, 0] : Fin 4 → ℝ) 2) ^ 2 + ((![1, 0, 0, 0] : Fin 4 → ℝ) 3) ^ 2))
          (((![1, 0, 0, 0] : Fin 4 → ℝ) 1) / Real.sqrt (((![1, 0, 0, 0] : Fin 4 → ℝ) 0) ^ 2 + ((![1, 0, 0, 0] : Fin 4 → ℝ) 1) ^ 2 + ((![1, 0, 0, 0] : Fin 4 → ℝ) 2) ^ 2 + ((![1, 0, 0, 0] : Fin 4 → ℝ) 3) ^ 2))
          (((![1, 0, 0, 0] : Fin 4 → ℝ) 2) / Real.sqrt (((![1, 0, 0, 0] : Fin 4 → ℝ) 0) ^ 2 + ((![1, 0, 0, 0] : Fin 4 → ℝ) 1) ^ 2 + ((![1, 0, 0, 0] : Fin 4 → ℝ) 2) ^ 2 + ((![1, 0, 0, 0] : Fin 4 → ℝ) 3) ^ 2))
          (((![1, 0, 0, 0] : Fin 4 → ℝ) 3) / Real.sqrt (((![1, 0, 0, 0] : Fin 4 → ℝ) 0) ^ 2 + ((![1, 0, 0, 0] : Fin 4 → ℝ) 1) ^ 2 + ((![1, 0, 0, 0] : Fin 4 → ℝ) 2) ^ 2 + ((![1, 0, 0, 0] : Fin 4 → ℝ) 3) ^ 2)) := by
  refine ⟨?_, ?_⟩
  · norm_num
  · exact quat2dcm_entry_formulas (![1, 0, 0, 0] : Fin 4 → ℝ) (by norm_num)

/-- C3: for every non-zero quaternion, `quat2dcm q` is a proper rotation:
`R · Rᵀ = 1` and `det R = 1`, over exact real arithmetic. -/
theorem quat2dcm_proper_rotation (q : Fin 4 → ℝ) (h : q ≠ 0) :
    quat2dcm q * (quat2dcm q)ᵀ = 1 ∧ (quat2dcm q).det = 1 := by
  have hn := normSq_normalized q h
  rw [quat2dcm_eq_rotRaw, rotRaw_eq_rotHom _ _ _ _ hn]
  exact ⟨rotHom_mul_transpose _ _ _ _ hn, rotHom_det _ _ _ _ hn⟩

/-- C3 witness: the identity quaternion is non-zero and the theorem applies. -/
theorem quat2dcm_proper_rotation_witness :
    (![1, 0, 0, 0] : Fin 4 → ℝ) ≠ 0 ∧
      (quat2dcm ![1, 0, 0, 0] * (quat2dcm ![1, 0, 0, 0])ᵀ = 1 ∧
        (quat2dcm (![1, 0, 0, 0] : Fin 4 → ℝ)).det = 1) := by
  refine ⟨?_, quat2dcm_proper_rotation ![1, 0, 0, 0] ?_⟩ <;>
  · intro hz
    have := congrFun hz 0
    norm_num at this

/-- C4: `quat2dcm` is scale-invariant: multiplying a non-zero quaternion by a
positive scalar does not change the returned matrix. -/
theorem quat2dcm_scale_invariant (q : Fin 4 → ℝ) (k : ℝ) (hq : q ≠ 0) (hk : 0 < k) :
    quat2dcm (k • q) = quat2dcm q := by
  have hnorm : qnorm (k • q) = k * qnorm q := by
    unfold qnorm
    have hsq : (k • q) 0 ^ 2 + (k • q) 1 ^ 2 + (k • q) 2 ^ 2 + (k • q) 3 ^ 2
        = k ^ 2 * (q 0 ^ 2 + q 1 ^ 2 + q 2 ^ 2 + q 3 ^ 2) := by
      simp only [Pi.smul_apply, smul_eq_mul]
      ring
    rw [hsq, Real.sqrt_mul (sq_nonneg k), Real.sqrt_sq hk.le]
  have e : ∀ i : Fin 4, (k • q) i / qnorm (k • q) = q i / qnorm q := by
    intro i
    rw [hnorm]
    simp only [Pi.smul_apply, smul_eq_mul]
    rw [mul_div_mul_left _ _ hk.ne']
  rw [quat2dcm_eq_rotRaw, quat2dcm_eq_rotRaw, e 0, e 1, e 2, e 3]

/-- C4 witness: the identity quaternion and scalar 2. -/
theorem quat2dcm_scale_invariant_witness :
    (![1, 0, 0, 0] : Fin 4 → ℝ) ≠ 0 ∧ (0 : ℝ) < 2 ∧
      quat2dcm ((2 : ℝ) • (![1, 0, 0, 0] : Fin 4 → ℝ)) = quat2dcm (![1, 0, 0, 0] : Fin 4 → ℝ) := by
  refine ⟨?_, by norm_num, quat2dcm_scale_invariant ![1, 0, 0, 0] 2 ?_ (by norm_num)⟩ <;>
  · intro hz
    have := congrFun hz 0
    norm_num at this

/-- C5: for every non-zero quaternion, translation, intrinsics and point list
with all camera-frame depths non-zero, `project` returns two lists of the same
length as the input, and entry `i` of each is the projection of input point `i`. -/
theorem project_length_and_order (q : Fin 4 → ℝ) (r : Fin 3 → ℝ)
    (K : Matrix (Fin 3) (Fin 3) ℝ) (points : List (Fin 4 → ℝ))
    (hq : q ≠ 0) (hd : ∀ p ∈ points, camPoint q r p 2 ≠ 0) :
    (project q r K points).1.length = points.length ∧
    (project q r K points).2.length = points.length ∧
    ∀ (i : ℕ) (h : i < points.length),
      (project q r K points).1[i]? = some (imgPoint q r K (points.get ⟨i, h⟩) 0) ∧
      (project q r K points).2[i]? = some (imgPoint q r K (points.get ⟨i, h⟩) 1) := by
  refine ⟨by simp [project], by simp [project], ?_⟩
  intro i h
  constructor <;>
    simp [project, List.getElem?_map, List.getElem?_eq_getElem h]

/-- C5 witness: identity quaternion, translation (0,0,1), identity intrinsics,
the single homogeneous point (0,0,0,1). -/
theorem project_length_and_order_witness :
    (![1, 0, 0, 0] : Fin 4 → ℝ) ≠ 0 ∧
    (∀ p ∈ ([![0, 0, 0, 1]] : List (Fin 4 → ℝ)),
      camPoint ![1, 0, 0, 0] ![0, 0, 1] p 2 ≠ 0) ∧
    ((project ![1, 0, 0, 0] ![0, 0, 1] 1 [![0, 0, 0, 1]]).1.length
        = ([![0, 0, 0, 1]] : List (Fin 4 → ℝ)).length ∧
      (project ![1, 0, 0, 0] ![0, 0, 1] 1 [![0, 0, 0, 1]]).2.length
        = ([![0, 0, 0, 1]] : List (Fin 4 → ℝ)).length ∧
      ∀ (i : ℕ) (h : i < ([![0, 0, 0, 1]] : List (Fin 4 → ℝ)).length),
        (project ![1, 0, 0, 0] ![0, 0, 1] 1 [![0, 0, 0, 1]]).1[i]? =
          some (imgPoint ![1, 0, 0, 0] ![0, 0, 1] 1 (([![0, 0, 0, 1]] : List (Fin 4 → ℝ)).get ⟨i, h⟩) 0) ∧
        (project ![1, 0, 0, 0] ![0, 0, 1] 1 [![0, 0, 0, 1]]).2[i]? =
          some (imgPoint ![1, 0, 0, 0] ![0, 0, 1] 1 (([![0, 0, 0, 1]] : List (Fin 4 → ℝ)).get ⟨i, h⟩) 1)) := by
  have hq : (![1, 0, 0, 0] : Fin 4 → ℝ) ≠ 0 := by
    intro hz
    have := congrFun hz 0
    norm_num at this
  have hd : ∀ p ∈ ([![0, 0, 0, 1]] : List (Fin 4 → ℝ)),
      camPoint ![1, 0, 0, 0] ![0, 0, 1] p 2 ≠ 0 := by
    intro p hp
    rw [List.mem_singleton] at hp
    subst hp
    simp [camPoint, poseMat, Matrix.mulVec, Matrix.dotProduct, Matrix.vecHead, Matrix.vecTail, Fin.sum_univ_four]
  exact ⟨hq, hd, project_length_and_order ![1, 0, 0, 0] ![0, 0, 1] 1 [![0, 0, 0, 1]] hq hd⟩

/-- C6: with the identity quaternion, translation (0, 0, d) with d > 0, and the
single homogeneous point (0,0,0,1), `project` returns exactly the principal
point (K[0][2], K[1][2]), independent of d. -/
theorem project_identity_center (d : ℝ) (K : Matrix (Fin 3) (Fin 3) ℝ)
    (hd : 0 < d) (hK : K 2 = ![0, 0, 1]) :
    project ![1, 0, 0, 0] ![0, 0, d] K [![0, 0, 0, 1]] = ([K 0 2], [K 1 2]) := by
  have hcam : ∀ i, camPoint (![1, 0, 0, 0] : Fin 4 → ℝ) ![0, 0, d] ![0, 0, 0, 1] i
      = (![0, 0, d] : Fin 3 → ℝ) i := by
    intro i
    simp [camPoint, poseMat, Matrix.mulVec, Matrix.dotProduct, Matrix.vecHead, Matrix.vecTail, Fin.sum_univ_four]
  have hnorm : normCamPoint (![1, 0, 0, 0] : Fin 4 → ℝ) ![0, 0, d] ![0, 0, 0, 1]
      = (![0, 0, 1] : Fin 3 → ℝ) := by
    funext i
    rw [normCamPoint, hcam, hcam]
    fin_cases i <;> simp [hd.ne']
  have himg : ∀ i, imgPoint (![1, 0, 0, 0] : Fin 4 → ℝ) ![0, 0, d] K ![0, 0, 0, 1] i = K i 2 := by
    intro i
    rw [imgPoint, hnorm]
    simp [Matrix.mulVec, Matrix.dotProduct, Matrix.vecHead, Matrix.vecTail, Fin.sum_univ_three]
  have h0 := himg 0
  have h1 := himg 1
  simp [project, h0, h1]

/-- C6 witness: depth 1 and identity intrinsics. -/
theorem project_identity_center_witness :
    (0 : ℝ) < 1 ∧ (1 : Matrix (Fin 3) (Fin 3) ℝ) 2 = ![0, 0, 1] ∧
      project ![1, 0, 0, 0] ![0, 0, 1] (1 : Matrix (Fin 3) (Fin 3) ℝ) [![0, 0, 0, 1]] =
        ([(1 : Matrix (Fin 3) (Fin 3) ℝ) 0 2], [(1 : Matrix (Fin 3) (Fin 3) ℝ) 1 2]) := by
  have hK : (1 : Matrix (Fin 3) (Fin 3) ℝ) 2 = ![0, 0, 1] := by
    funext j
    fin_cases j <;> simp [Matrix.one_apply]
  exact ⟨by norm_num, hK, project_identity_center 1 1 (by norm_num) hK⟩

/-- C7: `scalePoseVector` leaves the origin entry (index 0) of both arrays
unchanged, maps each tip entry `i` in 1..3 to `(p[i] - p[0]) * factor + p[0]`,
and with factor 1 is the identity on all entries. -/
theorem scalePoseVector_origin_and_tips (xa ya : Fin 4 → ℝ) (factor : ℝ) :
    (scalePoseVector xa ya factor).1 0 = xa 0 ∧
    (scalePoseVector xa ya factor).2 0 = ya 0 ∧
    (scalePoseVector xa ya factor).1 1 = (xa 1 - xa 0) * factor + xa 0 ∧
    (scalePoseVector xa ya factor).1 2 = (xa 2 - xa 0) * factor + xa 0 ∧
    (scalePoseVector xa ya factor).1 3 = (xa 3 - xa 0) * factor + xa 0 ∧
    (scalePoseVector xa ya factor).2 1 = (ya 1 - ya 0) * factor + ya 0 ∧
    (scalePoseVector xa ya factor).2 2 = (ya 2 - ya 0) * factor + ya 0 ∧
    (scalePoseVector xa ya factor).2 3 = (ya 3 - ya 0) * factor + ya 0 ∧
    scalePoseVector xa ya 1 = (xa, ya) := by
  refine ⟨?_, ?_, ?_, ?_, ?_, ?_, ?_, ?_, ?_⟩
  · simp [scalePoseVector, Function.update]
  · simp [scalePoseVector, Function.update]
  · simp [scalePoseVector, Function.update]
  · simp [scalePoseVector, Function.update]
  · simp [scalePoseVector, Function.update]
  · simp [scalePoseVector, Function.update]
  · simp [scalePoseVector, Function.update]
  · simp [scalePoseVector, Function.update]
  · refine Prod.ext ?_ ?_ <;> funext i <;> fin_cases i <;>
      simp [scalePoseVector, Function.update]

/-- C8: constructing the dataset with a split name outside
{train, test, real_test} fails with the invalid-argument error and produces no
state. -/
theorem speedDatasetInit_invalid_split (split : String) (l : List SpeedRecord)
    (si sc : Option ℤ) (h : split ∉ (["train", "test", "real_test"] : List String)) :
    speedDatasetInit split l si sc = Except.error InitError.invalidSplit := by
  simp [speedDatasetInit, h]

/-- C8 witness: the split name "validation" is rejected. -/
theorem speedDatasetInit_invalid_split_witness :
    ("validation" ∉ (["train", "test", "real_test"] : List String)) ∧
      speedDatasetInit "validation" [] none none = Except.error InitError.invalidSplit :=
  ⟨by decide, speedDatasetInit_invalid_split "validation" [] none none (by decide)⟩

/-- C9: on the train split with `split_index = k < N` and no overfit index the
index holds exactly the first `k` records in order; with overfit index
`i < N` it holds exactly the single record `i`, whatever `split_index` is. -/
theorem speedDatasetInit_truncation_and_overfit (l : List SpeedRecord) (k i : ℕ)
    (si : Option ℤ) (hk : k < l.length) (hi : i < l.length) :
    (speedDatasetInit "train" l (some (k : ℤ)) none =
        Except.ok ⟨(l.map (fun a => a.filename)).take k, true, (l.map mkLabel).take k⟩ ∧
      ((l.map (fun a => a.filename)).take k).length = k) ∧
    speedDatasetInit "train" l si (some (i : ℤ)) =
      Except.ok ⟨[(l.get ⟨i, hi⟩).filename], true, [mkLabel (l.get ⟨i, hi⟩)]⟩ := by
  refine ⟨⟨?_, ?_⟩, ?_⟩
  · simp [speedDatasetInit, pySliceTo]
  · simp [List.length_take, min_eq_left hk.le]
  · have e1 : pyIndex (l.map (fun a => a.filename)) (i : ℤ) =
        some ((l.get ⟨i, hi⟩).filename) := by
      simp [pyIndex, List.get?_eq_getElem?, List.getElem?_map,
        List.getElem?_eq_getElem hi, hi]
    have e2 : pyIndex (l.map mkLabel) (i : ℤ) = some (mkLabel (l.get ⟨i, hi⟩)) := by
      simp [pyIndex, List.get?_eq_getElem?, List.getElem?_map,
        List.getElem?_eq_getElem hi, hi]
    simp [speedDatasetInit, e1, e2]

/-- C9 witness: two records, truncation to one, overfit on index 1 with a
competing `split_index`. -/
theorem speedDatasetInit_truncation_and_overfit_witness :
    (1 < ([recA, recB] : List SpeedRecord).length ∧ 1 < ([recA, recB] : List SpeedRecord).length) ∧
    ((speedDatasetInit "train" [recA, recB] (some ((1 : ℕ) : ℤ)) none =
        Except.ok ⟨(([recA, recB] : List SpeedRecord).map (fun a => a.filename)).take 1, true,
          (([recA, recB] : List SpeedRecord).map mkLabel).take 1⟩ ∧
      ((([recA, recB] : List SpeedRecord).map (fun a => a.filename)).take 1).length = 1) ∧
    speedDatasetInit "train" [recA, recB] (some 7) (some ((1 : ℕ) : ℤ)) =
      Except.ok ⟨[(([recA, recB] : List SpeedRecord).get ⟨1, by decide⟩).filename], true,
        [mkLabel (([recA, recB] : List SpeedRecord).get ⟨1, by decide⟩)]⟩) :=
  ⟨⟨by decide, by decide⟩,
    speedDatasetInit_truncation_and_overfit [recA, recB] 1 1 (some 7) (by decide) (by decide)⟩

/-- C10: on the train split with the default `split_index = None` and no
overfit index, the sentinel `-1` is used as the slice bound, so exactly the
first `N - 1` records survive: the last record is dropped from both the
sample-id list and the label list, and `__len__` reports `N - 1`. -/
theorem speedDatasetInit_default_drops_last (l : List SpeedRecord) (h : 1 ≤ l.length) :
    speedDatasetInit "train" l none none =
        Except.ok ⟨(l.map (fun a => a.filename)).take (l.length - 1), true,
          (l.map mkLabel).take (l.length - 1)⟩ ∧
      Except.map speedLen (speedDatasetInit "train" l none none) =
        Except.ok (l.length - 1) := by
  have ht : ((l.length : ℤ) + -1).toNat = l.length - 1 := by omega
  have hmain : speedDatasetInit "train" l none none =
      Except.ok ⟨(l.map (fun a => a.filename)).take (l.length - 1), true,
        (l.map mkLabel).take (l.length - 1)⟩ := by
    simp [speedDatasetInit, pySliceTo, ht]
  refine ⟨hmain, ?_⟩
  rw [hmain]
  simp [speedLen, Except.map, List.length_take]

/-- C10 witness: two records yield exactly one sample. -/
theorem speedDatasetInit_default_drops_last_witness :
    1 ≤ ([recA, recB] : List SpeedRecord).length ∧
    (speedDatasetInit "train" [recA, recB] none none =
        Except.ok ⟨(([recA, recB] : List SpeedRecord).map (fun a => a.filename)).take
            (([recA, recB] : List SpeedRecord).length - 1), true,
          (([recA, recB] : List SpeedRecord).map mkLabel).take
            (([recA, recB] : List SpeedRecord).length - 1)⟩ ∧
      Except.map speedLen (speedDatasetInit "train" [recA, recB] none none) =
        Except.ok (([recA, recB] : List SpeedRecord).length - 1)) :=
  ⟨by decide, speedDatasetInit_default_drops_last [recA, recB] (by decide)⟩

end SpeedPose
